import Mathlib

/-!
Shallow embedding of `src/robot/api/interfaces.py`: the optional base classes
`DynamicLibrary` and `HybridLibrary` for Robot Framework test libraries,
together with the type aliases (`ArgumentSpec`, `TypeSpec`, `Tags`, `Source`)
they use.  Python methods are modelled as explicit state-passing functions;
a raised exception is an `Except.error`.
-/

namespace RobotInterfaces

/-- Python runtime values, shallowly embedded.  Only the shapes the interface
contract mentions are needed (argument values, default values, return values). -/
inductive Value where
  | none : Value
  | bool : Bool → Value
  | int : Int → Value
  | str : String → Value
  | list : List Value → Value

/-- Python exceptions relevant to the contract: `NotImplementedError` raised by
the abstract methods, Robot Framework's FAIL and SKIP reporting exceptions
(docstring of `run_keywords`: "Reporting FAIL or SKIP status"), and any other
exception, identified by a message. -/
inductive PyException where
  | notImplementedError : PyException
  | failure : String → PyException
  | skip : String → PyException
  | other : String → PyException
  deriving Repr, DecidableEq

/-- `Name = str` (type alias, interfaces.py line 47). -/
abbrev Name := String

/-- `Documentation = str` (type alias, line 48). -/
abbrev Documentation := String

/-- One entry of `ArgumentSpec` (lines 49-55): a plain string such as `arg` or
`arg=1`, a one-tuple `('arg',)`, or a two-tuple `('arg', 1)`. -/
inductive ArgEntry where
  | str : String → ArgEntry
  | tuple1 : String → ArgEntry
  | tuple2 : String → Value → ArgEntry

/-- `ArgumentSpec = List[Union[str, Tuple[str], Tuple[str, Any]]]` (lines 49-55). -/
abbrev ArgumentSpec := List ArgEntry

/-- A single type reference inside a `TypeSpec` (lines 56-71): either an actual
class (identified here by its name) or a type name / alias given as a string. -/
inductive TypeRef where
  | cls : String → TypeRef
  | alias : String → TypeRef
  deriving Repr, DecidableEq

/-- `TypeSpec` (lines 56-71): types either by name (a `Dict[str, type | str]`)
or by position (a `List[type | str | None]`). -/
inductive TypeSpec where
  | byName : List (String × TypeRef) → TypeSpec
  | byPosition : List (Option TypeRef) → TypeSpec

/-- `Tags = List[str]` (line 72). -/
abbrev Tags := List String

/-- `Source = str` (line 73). -/
abbrev Source := String

/-! ## The `DynamicLibrary` base class (lines 76-237)

The class body is embedded as one Lean definition per method, each taking the
instance state `st : σ` explicitly and returning the (possibly raised) result
together with the state after the call.  A subclass instance is a
`DynamicLibraryImpl`: implementations for the two abstract methods plus an
optional override for each of the five optional methods; calling a method
dispatches to the override when present and to the base-class body otherwise,
exactly as Python method resolution does. -/

namespace DynamicLibrary

/-- Body of the abstract `get_keyword_names` (lines 86-95): `raise NotImplementedError`. -/
def get_keyword_names_base {σ : Type} (st : σ) :
    Except PyException (List Name) × σ :=
  (Except.error PyException.notImplementedError, st)

/-- Body of the abstract `run_keywords` (lines 97-110): `raise NotImplementedError`.
Named arguments are a dictionary, embedded as an association list. -/
def run_keywords_base {σ : Type} (st : σ) (_name : Name) (_args : List Value)
    (_named : List (String × Value)) : Except PyException Value × σ :=
  (Except.error PyException.notImplementedError, st)

/-- Body of `get_keyword_documentation` (lines 112-128): `return None`. -/
def get_keyword_documentation_base {σ : Type} (st : σ) (_name : Name) :
    Except PyException (Option Documentation) × σ :=
  (Except.ok none, st)

/-- Body of `get_keyword_arguments` (lines 130-171): `return None`. -/
def get_keyword_arguments_base {σ : Type} (st : σ) (_name : Name) :
    Except PyException (Option ArgumentSpec) × σ :=
  (Except.ok none, st)

/-- Body of `get_keyword_types` (lines 173-204): `return None`. -/
def get_keyword_types_base {σ : Type} (st : σ) (_name : Name) :
    Except PyException (Option TypeSpec) × σ :=
  (Except.ok none, st)

/-- Body of `get_keyword_tags` (lines 206-215): `return None`. -/
def get_keyword_tags_base {σ : Type} (st : σ) (_name : Name) :
    Except PyException (Option Tags) × σ :=
  (Except.ok none, st)

/-- Body of `get_keyword_source` (lines 217-237): `return None`. -/
def get_keyword_source_base {σ : Type} (st : σ) (_name : Name) :
    Except PyException (Option Source) × σ :=
  (Except.ok none, st)

/-- The methods marked `@abstractmethod` in the class body (lines 86 and 97). -/
def abstractMethods : List String := ["get_keyword_names", "run_keywords"]

/-- The optional methods of the class body (lines 112, 130, 173, 206, 217). -/
def optionalMethods : List String :=
  ["get_keyword_documentation", "get_keyword_arguments", "get_keyword_types",
   "get_keyword_tags", "get_keyword_source"]

/-- Every method declared in the `DynamicLibrary` class body. -/
def methods : List String := abstractMethods ++ optionalMethods

end DynamicLibrary

/-- An instance of a concrete subclass of `DynamicLibrary`: the two abstract
methods must be implemented; each optional method may or may not be overridden
(`none` = not overridden, the base-class body is used). -/
structure DynamicLibraryImpl (σ : Type) where
  get_keyword_names : σ → Except PyException (List Name) × σ
  run_keywords : σ → Name → List Value → List (String × Value) →
    Except PyException Value × σ
  get_keyword_documentation? :
    Option (σ → Name → Except PyException (Option Documentation) × σ) := none
  get_keyword_arguments? :
    Option (σ → Name → Except PyException (Option ArgumentSpec) × σ) := none
  get_keyword_types? :
    Option (σ → Name → Except PyException (Option TypeSpec) × σ) := none
  get_keyword_tags? :
    Option (σ → Name → Except PyException (Option Tags) × σ) := none
  get_keyword_source? :
    Option (σ → Name → Except PyException (Option Source) × σ) := none

namespace DynamicLibraryImpl

variable {σ : Type}

/-- Python method dispatch for `get_keyword_documentation`: the subclass
override when present, otherwise the base-class body. -/
def call_documentation (lib : DynamicLibraryImpl σ) (st : σ) (name : Name) :
    Except PyException (Option Documentation) × σ :=
  match lib.get_keyword_documentation? with
  | some m => m st name
  | none => DynamicLibrary.get_keyword_documentation_base st name

/-- Python method dispatch for `get_keyword_arguments`. -/
def call_arguments (lib : DynamicLibraryImpl σ) (st : σ) (name : Name) :
    Except PyException (Option ArgumentSpec) × σ :=
  match lib.get_keyword_arguments? with
  | some m => m st name
  | none => DynamicLibrary.get_keyword_arguments_base st name

/-- Python method dispatch for `get_keyword_types`. -/
def call_types (lib : DynamicLibraryImpl σ) (st : σ) (name : Name) :
    Except PyException (Option TypeSpec) × σ :=
  match lib.get_keyword_types? with
  | some m => m st name
  | none => DynamicLibrary.get_keyword_types_base st name

/-- Python method dispatch for `get_keyword_tags`. -/
def call_tags (lib : DynamicLibraryImpl σ) (st : σ) (name : Name) :
    Except PyException (Option Tags) × σ :=
  match lib.get_keyword_tags? with
  | some m => m st name
  | none => DynamicLibrary.get_keyword_tags_base st name

/-- Python method dispatch for `get_keyword_source`. -/
def call_source (lib : DynamicLibraryImpl σ) (st : σ) (name : Name) :
    Except PyException (Option Source) × σ :=
  match lib.get_keyword_source? with
  | some m => m st name
  | none => DynamicLibrary.get_keyword_source_base st name

/-- Calling `run_keywords` on a subclass instance: the implementation is
invoked with the name and arguments unchanged and nothing is caught. -/
def call_run_keywords (lib : DynamicLibraryImpl σ) (st : σ) (name : Name)
    (args : List Value) (named : List (String × Value)) :
    Except PyException Value × σ :=
  lib.run_keywords st name args named

end DynamicLibraryImpl

/-! ## The `HybridLibrary` base class (lines 240-261)

Only `get_keyword_names` is declared (abstract, lines 255-261).  The class
docstring says Robot Framework then uses `getattr` to obtain the actual keyword
methods, so an instance is embedded together with its attribute-lookup
function. -/

namespace HybridLibrary

/-- Body of the abstract `get_keyword_names` (lines 255-261): `raise NotImplementedError`. -/
def get_keyword_names_base {σ : Type} (st : σ) :
    Except PyException (List Name) × σ :=
  (Except.error PyException.notImplementedError, st)

/-- The methods marked `@abstractmethod` in the class body (line 255). -/
def abstractMethods : List String := ["get_keyword_names"]

/-- Every method declared in the `HybridLibrary` class body: only
`get_keyword_names`, no optional introspection methods. -/
def methods : List String := ["get_keyword_names"]

end HybridLibrary

/-- An instance of a concrete subclass of `HybridLibrary`: an implementation of
the single abstract method, plus the object's attribute lookup (`getattr`),
which yields a keyword method or nothing. -/
structure HybridLibraryImpl (σ : Type) where
  get_keyword_names : σ → Except PyException (List Name) × σ
  getattr : σ → Name → Option (σ → List Value → Except PyException Value × σ)

/-- Conformance to the hybrid contract (docstrings, lines 241-252 and 257-260):
every name returned by `get_keyword_names` must match an implemented keyword
method, i.e. resolve through `getattr` to an actual method. -/
def HybridConforming {σ : Type} (lib : HybridLibraryImpl σ) : Prop :=
  ∀ st names st', lib.get_keyword_names st = (Except.ok names, st') →
    ∀ name ∈ names, (lib.getattr st' name).isSome = true

/-! ## Plugin shapes and implementation styles

A plugin object as the consuming engine sees it: it may or may not implement
`get_keyword_names` and `run_keywords`, and it always supports attribute
lookup.  This is the common surface over which conformance to the two
contracts is compared. -/

/-- The externally visible surface of a library plugin object. -/
structure Plugin (σ : Type) where
  get_keyword_names? : Option (σ → Except PyException (List Name) × σ) := none
  run_keywords? : Option (σ → Name → List Value → List (String × Value) →
    Except PyException Value × σ) := none
  getattr : σ → Name → Option (σ → List Value → Except PyException Value × σ) :=
    fun _ _ => none

/-- A plugin satisfies the `DynamicLibrary` contract when it implements both
abstract methods of that class (lines 86 and 97). -/
def DynamicPluginConforming {σ : Type} (p : Plugin σ) : Prop :=
  p.get_keyword_names?.isSome = true ∧ p.run_keywords?.isSome = true

/-- A plugin satisfies the `HybridLibrary` contract when it implements
`get_keyword_names` (line 255) and every returned name resolves via `getattr`
to a keyword method (lines 241-252, 257-260). -/
def HybridPluginConforming {σ : Type} (p : Plugin σ) : Prop :=
  ∃ g, p.get_keyword_names? = some g ∧
    ∀ st names st', g st = (Except.ok names, st') →
      ∀ name ∈ names, (p.getattr st' name).isSome = true

/-- A concrete plugin that implements `get_keyword_names`, `run_keywords` and
also exposes its sole keyword as an ordinary attribute. -/
def bothStylesPlugin : Plugin Unit where
  get_keyword_names? := some fun st => (Except.ok ["keyword"], st)
  run_keywords? := some fun st _ _ _ => (Except.ok Value.none, st)
  getattr := fun _ name =>
    if name = "keyword" then some fun st _ => (Except.ok Value.none, st) else none

/-- Modelled from the spec: the consuming engine (not part of src) treats each
plugin under exactly one implementation style — the dynamic style when
`run_keywords` is implemented, otherwise the hybrid style when
`get_keyword_names` is implemented. -/
inductive Style where
  | dynamic : Style
  | hybrid : Style
  deriving Repr, DecidableEq

/-- Modelled from the spec: the engine's selection of the implementation style
applied to a plugin ("a conforming plugin selects exactly one"). -/
def selectStyle {σ : Type} (p : Plugin σ) : Option Style :=
  if p.run_keywords?.isSome then some Style.dynamic
  else if p.get_keyword_names?.isSome then some Style.hybrid
  else none

/-! ## Argument specifications (docstring of `get_keyword_arguments`, lines 140-169)

Classification of the entries of an `ArgumentSpec` and the well-formedness
rules stated in the docstring, embedded as a small grammar automaton. -/

/-- `true` when the Python string starts with `*`. -/
def startsStar (s : String) : Bool :=
  match s.data with
  | '*' :: _ => true
  | _ => false

/-- `true` when the Python string starts with `**`. -/
def startsStarStar (s : String) : Bool :=
  match s.data with
  | '*' :: '*' :: _ => true
  | _ => false

/-- `true` when the Python string contains `=` (an embedded default value). -/
def containsEq (s : String) : Bool := s.data.any fun c => c = '='

/-- The name part of an argument specification entry. -/
def ArgEntry.argName : ArgEntry → String
  | .str s => s
  | .tuple1 n => n
  | .tuple2 n _ => n

/-- Whether an entry carries a default value: a string with an embedded `=`
(lines 159-161) or a two-tuple (lines 162-164); a lone-name tuple or a plain
name has none (lines 165-166). -/
def ArgEntry.hasDefault : ArgEntry → Bool
  | .str s => containsEq s
  | .tuple1 _ => false
  | .tuple2 _ _ => true

/-- The syntactic role an `ArgumentSpec` entry plays. -/
inductive EntryKind where
  | required : EntryKind
  | withDefault : EntryKind
  | varargs : EntryKind
  | sep : EntryKind
  | kwargs : EntryKind
  deriving Repr, DecidableEq

/-- Classification of one entry, following the docstring: a lone `*` is the
named-only separator (lines 151-153), a `**` prefix marks kwargs (lines
154-155), a `*` prefix marks varargs (lines 147-148), and otherwise the entry
is a normal argument with or without a default (lines 144-146, 157-166). -/
def ArgEntry.kind (e : ArgEntry) : EntryKind :=
  if e.argName = "*" then EntryKind.sep
  else if startsStarStar e.argName then EntryKind.kwargs
  else if startsStar e.argName then EntryKind.varargs
  else if e.hasDefault then EntryKind.withDefault
  else EntryKind.required

/-- Phase of the well-formedness automaton: reading positional arguments
without defaults, positional arguments with defaults, or named-only
arguments (after varargs or the lone `*` separator). -/
inductive WfPhase where
  | pos : WfPhase
  | posDef : WfPhase
  | named : WfPhase
  deriving Repr, DecidableEq

/-- The well-formedness rules of the docstring as an automaton over entry
kinds: positional arguments with defaults follow those without (lines
167-168); varargs or the lone `*` separator switches to named-only arguments
(lines 147-153), where defaults may appear in any order (lines 168-169);
kwargs must be last (lines 154-155). -/
def wfAux : WfPhase → List EntryKind → Bool
  | _, [] => true
  | .pos, .required :: r => wfAux .pos r
  | .pos, .withDefault :: r => wfAux .posDef r
  | .pos, .varargs :: r => wfAux .named r
  | .pos, .sep :: r => wfAux .named r
  | .pos, .kwargs :: r => r.isEmpty
  | .posDef, .required :: _ => false
  | .posDef, .withDefault :: r => wfAux .posDef r
  | .posDef, .varargs :: r => wfAux .named r
  | .posDef, .sep :: r => wfAux .named r
  | .posDef, .kwargs :: r => r.isEmpty
  | .named, .required :: r => wfAux .named r
  | .named, .withDefault :: r => wfAux .named r
  | .named, .varargs :: _ => false
  | .named, .sep :: _ => false
  | .named, .kwargs :: r => r.isEmpty

/-- A well-formed argument specification per the docstring rules. -/
def wellFormed (spec : ArgumentSpec) : Bool :=
  wfAux WfPhase.pos (spec.map ArgEntry.kind)

/-- A kind occupying a normal (positional or named-only) argument slot. -/
def isPositionalKind : EntryKind → Bool
  | .required => true
  | .withDefault => true
  | _ => false

/-- Every kind in the list is `withDefault`. -/
def allWithDefault : List EntryKind → Bool
  | [] => true
  | .withDefault :: r => allWithDefault r
  | _ :: _ => false

/-- In a run of normal-argument kinds, once a default appears every later
entry also has a default (no required entry after a defaulted one). -/
def defaultsFollowRequired : List EntryKind → Bool
  | [] => true
  | .required :: r => defaultsFollowRequired r
  | .withDefault :: r => allWithDefault r
  | _ :: _ => false

/-! ## The consuming engine's view (modelled from the spec)

The engine that calls these interfaces is not part of src; the definitions
below embed, from the spec's words, exactly the engine behaviour the claims
refer to. -/

/-- Modelled from the spec: the outcome the consuming engine (not part of src)
reports for one keyword call — an explicit FAIL, an explicit SKIP, a passed
call with the keyword's return value, or an unexpected failure for any other
raised error. -/
inductive Outcome where
  | passed : Value → Outcome
  | failed : String → Outcome
  | skipped : String → Outcome
  | unexpectedFailure : PyException → Outcome

/-- Modelled from the spec: how the consuming engine (not part of src) turns
the raw result of `run_keywords` into an outcome; errors other than FAIL and
SKIP pass through unmodified into an unexpected-failure outcome. -/
def interpretRun (r : Except PyException Value) : Outcome :=
  match r with
  | Except.ok v => Outcome.passed v
  | Except.error (PyException.failure msg) => Outcome.failed msg
  | Except.error (PyException.skip msg) => Outcome.skipped msg
  | Except.error e => Outcome.unexpectedFailure e

/-- Modelled from the spec: the introspection pass of the consuming engine
(not part of src) — for every keyword name obtained from `get_keyword_names`,
each optional method is invoked with exactly that string as its `name`
argument, with no normalization in between ("``name`` passed to other methods
is always in the same format as returned by this method", lines 92-93). -/
def introspectCalls (names : List Name) : List (String × Name) :=
  names.flatMap fun n => DynamicLibrary.optionalMethods.map fun m => (m, n)

/-! ## Type specifications (docstring of `get_keyword_types`, lines 183-202) -/

/-- The parameter name of an entry as it appears in a name-keyed type
specification: leading `*` markers dropped and an embedded `=default`
stripped. -/
def ArgEntry.paramName (e : ArgEntry) : String :=
  String.mk ((e.argName.data.dropWhile fun c => c = '*').takeWhile fun c => c != '=')

/-- First binding for a parameter name in a name-keyed type specification. -/
def lookupType (m : List (String × TypeRef)) (n : String) : Option TypeRef :=
  (m.find? fun p => p.1 == n).map Prod.snd

/-- Modelled from the spec: resolution of a returned type specification
against the keyword's argument specification, as the external conversion
engine (not part of src) performs it — a dictionary is read by parameter
name, a list by position; a missing dictionary key, a `None` list entry, or a
position past the end of the list all mean "no type information" rather than
an error (lines 183-193). -/
def resolveTypeFor (ts : TypeSpec) (spec : ArgumentSpec) (i : Nat) : Option TypeRef :=
  match spec[i]? with
  | none => none
  | some e =>
    match ts with
    | TypeSpec.byName m => lookupType m e.paramName
    | TypeSpec.byPosition l => l[i]?.join

/-! ## Source locators (docstring of `get_keyword_source`, lines 227-235) -/

/-- Scan the reversed character list for the first colon (the last colon of
the original string); returns the part before it and, via `acc`, the part
after it, both in original order. -/
def splitRevAux : List Char → List Char → Option (List Char × List Char)
  | [], _ => none
  | c :: rest, acc =>
      if c = ':' then some (rest.reverse, acc) else splitRevAux rest (c :: acc)

/-- Split a string at its last colon into (front, back); `none` when the
string has no colon. -/
def splitAtLastColon (s : String) : Option (String × String) :=
  match splitRevAux s.data.reverse [] with
  | none => none
  | some (front, back) => some (String.mk front, String.mk back)

/-- Numeric value of a digit-character list. -/
def digitsToNat (cs : List Char) : Nat :=
  cs.foldl (fun n c => 10 * n + (c.toNat - 48)) 0

/-- A nonempty list of decimal digit characters. -/
def isDigits (cs : List Char) : Bool := !cs.isEmpty && cs.all Char.isDigit

/-- Modelled from the spec: how the external caller (not part of src)
interprets a source locator returned by `get_keyword_source` — `path:lineno`
splits into the path and the line number, a locator such as `:42` keeps only
the line number and takes the path from the library's own source file, and a
locator without a line-number suffix is a bare path (lines 227-235). -/
def parseSourceLocator (locator : Source) (libraryPath : Option Source) :
    Option Source × Option Nat :=
  match splitAtLastColon locator with
  | some (front, back) =>
      if isDigits back.data then
        (if front.data.isEmpty then libraryPath else some front,
         some (digitsToNat back.data))
      else (some locator, none)
  | none => (some locator, none)

/-! ## Sample instances used by the witnesses -/

/-- A minimal dynamic library subclass that overrides no optional method. -/
def plainDynamicLibrary : DynamicLibraryImpl Unit where
  get_keyword_names := fun st => (Except.ok ["keyword"], st)
  run_keywords := fun st _ _ _ => (Except.ok Value.none, st)

/-- A dynamic library whose only keyword raises a non-FAIL, non-SKIP error. -/
def erroringDynamicLibrary : DynamicLibraryImpl Unit where
  get_keyword_names := fun st => (Except.ok ["keyword"], st)
  run_keywords := fun st _ _ _ => (Except.error (PyException.other "boom"), st)

/-- A dynamic library that overrides `get_keyword_documentation`, echoing the
requested name. -/
def documentedDynamicLibrary : DynamicLibraryImpl Unit where
  get_keyword_names := fun st => (Except.ok ["keyword"], st)
  run_keywords := fun st _ _ _ => (Except.ok Value.none, st)
  get_keyword_documentation? := some fun st name => (Except.ok (some name), st)

/-- A hybrid library exposing its sole keyword as an ordinary attribute. -/
def sampleHybridLibrary : HybridLibraryImpl Unit where
  get_keyword_names := fun st => (Except.ok ["keyword"], st)
  getattr := fun _ name =>
    if name = "keyword" then some fun st _ => (Except.ok Value.none, st) else none

/-! ## Theorems for the claims -/

/-- Claim C1: on any `DynamicLibrary` instance that does not override them,
each of the five optional introspection methods returns the absence value
`None` for every keyword name (including the reserved names `__intro__` and
`__init__`), never raises, and leaves the instance state unchanged. -/
theorem optional_methods_default_return_none {σ : Type}
    (lib : DynamicLibraryImpl σ) (st : σ) (name : Name)
    (hdoc : lib.get_keyword_documentation? = none)
    (harg : lib.get_keyword_arguments? = none)
    (htyp : lib.get_keyword_types? = none)
    (htag : lib.get_keyword_tags? = none)
    (hsrc : lib.get_keyword_source? = none) :
    lib.call_documentation st name = (Except.ok none, st) ∧
    lib.call_arguments st name = (Except.ok none, st) ∧
    lib.call_types st name = (Except.ok none, st) ∧
    lib.call_tags st name = (Except.ok none, st) ∧
    lib.call_source st name = (Except.ok none, st) := by
  refine ⟨?_, ?_, ?_, ?_, ?_⟩ <;>
    simp [DynamicLibraryImpl.call_documentation, DynamicLibraryImpl.call_arguments,
      DynamicLibraryImpl.call_types, DynamicLibraryImpl.call_tags,
      DynamicLibraryImpl.call_source, hdoc, harg, htyp, htag, hsrc,
      DynamicLibrary.get_keyword_documentation_base,
      DynamicLibrary.get_keyword_arguments_base,
      DynamicLibrary.get_keyword_types_base,
      DynamicLibrary.get_keyword_tags_base,
      DynamicLibrary.get_keyword_source_base]

/-- Witness for C1: the defaults on a concrete unoverriding instance, called
with the reserved name `__intro__`. -/
theorem optional_methods_default_return_none_witness :
    plainDynamicLibrary.call_documentation () "__intro__" = (Except.ok none, ()) ∧
    plainDynamicLibrary.call_arguments () "__intro__" = (Except.ok none, ()) ∧
    plainDynamicLibrary.call_types () "__intro__" = (Except.ok none, ()) ∧
    plainDynamicLibrary.call_tags () "__intro__" = (Except.ok none, ()) ∧
    plainDynamicLibrary.call_source () "__intro__" = (Except.ok none, ()) :=
  optional_methods_default_return_none plainDynamicLibrary () "__intro__"
    rfl rfl rfl rfl rfl

/-- Claim C10: the unoverridden default bodies of the five optional
introspection methods are pure — across any two instances (even of different
state types) and any two names, the returned values coincide, and no call
changes the instance state. -/
theorem optional_defaults_noninterference {σ₁ σ₂ : Type}
    (st₁ : σ₁) (st₂ : σ₂) (n₁ n₂ : Name) :
    (DynamicLibrary.get_keyword_documentation_base st₁ n₁).1
      = (DynamicLibrary.get_keyword_documentation_base st₂ n₂).1 ∧
    (DynamicLibrary.get_keyword_documentation_base st₁ n₁).2 = st₁ ∧
    (DynamicLibrary.get_keyword_arguments_base st₁ n₁).1
      = (DynamicLibrary.get_keyword_arguments_base st₂ n₂).1 ∧
    (DynamicLibrary.get_keyword_arguments_base st₁ n₁).2 = st₁ ∧
    (DynamicLibrary.get_keyword_types_base st₁ n₁).1
      = (DynamicLibrary.get_keyword_types_base st₂ n₂).1 ∧
    (DynamicLibrary.get_keyword_types_base st₁ n₁).2 = st₁ ∧
    (DynamicLibrary.get_keyword_tags_base st₁ n₁).1
      = (DynamicLibrary.get_keyword_tags_base st₂ n₂).1 ∧
    (DynamicLibrary.get_keyword_tags_base st₁ n₁).2 = st₁ ∧
    (DynamicLibrary.get_keyword_source_base st₁ n₁).1
      = (DynamicLibrary.get_keyword_source_base st₂ n₂).1 ∧
    (DynamicLibrary.get_keyword_source_base st₁ n₁).2 = st₁ :=
  ⟨rfl, rfl, rfl, rfl, rfl, rfl, rfl, rfl, rfl, rfl⟩

/-- Claim C3: `get_keyword_names` and `run_keywords` are the abstract
(required) methods of `DynamicLibrary`; the class gives them no default
behaviour — their base-class bodies raise `NotImplementedError` — whereas the
optional methods' base bodies return `None` without raising. -/
theorem dynamic_required_methods_abstract {σ : Type} (st : σ) (name : Name)
    (args : List Value) (named : List (String × Value)) :
    DynamicLibrary.abstractMethods = ["get_keyword_names", "run_keywords"] ∧
    DynamicLibrary.get_keyword_names_base st
      = (Except.error PyException.notImplementedError, st) ∧
    DynamicLibrary.run_keywords_base st name args named
      = (Except.error PyException.notImplementedError, st) ∧
    (DynamicLibrary.get_keyword_documentation_base st name).1 = Except.ok none ∧
    (DynamicLibrary.get_keyword_arguments_base st name).1 = Except.ok none ∧
    (DynamicLibrary.get_keyword_types_base st name).1 = Except.ok none ∧
    (DynamicLibrary.get_keyword_tags_base st name).1 = Except.ok none ∧
    (DynamicLibrary.get_keyword_source_base st name).1 = Except.ok none :=
  ⟨rfl, rfl, rfl, rfl, rfl, rfl, rfl, rfl⟩

/-- Claim C2: `run_keywords` receives the keyword name, the positional
argument list and the named-argument mapping, and its result reaches the
caller unmodified: a normal return yields the keyword's return value, a FAIL
or SKIP exception signals the corresponding explicit outcome, and any other
raised error passes through unchanged and is treated as an unexpected
failure. -/
theorem run_keywords_outcome_contract {σ : Type} (lib : DynamicLibraryImpl σ)
    (st : σ) (name : Name) (args : List Value) (named : List (String × Value)) :
    lib.call_run_keywords st name args named = lib.run_keywords st name args named ∧
    (∀ v, (lib.run_keywords st name args named).1 = Except.ok v →
      interpretRun (lib.call_run_keywords st name args named).1 = Outcome.passed v) ∧
    (∀ msg, (lib.run_keywords st name args named).1
        = Except.error (PyException.failure msg) →
      interpretRun (lib.call_run_keywords st name args named).1 = Outcome.failed msg) ∧
    (∀ msg, (lib.run_keywords st name args named).1
        = Except.error (PyException.skip msg) →
      interpretRun (lib.call_run_keywords st name args named).1 = Outcome.skipped msg) ∧
    (∀ e, (lib.run_keywords st name args named).1 = Except.error e →
      (∀ msg, e ≠ PyException.failure msg) → (∀ msg, e ≠ PyException.skip msg) →
      interpretRun (lib.call_run_keywords st name args named).1
        = Outcome.unexpectedFailure e) := by
  refine ⟨rfl, ?_, ?_, ?_, ?_⟩
  · intro v hv
    simp [DynamicLibraryImpl.call_run_keywords, hv, interpretRun]
  · intro msg hmsg
    simp [DynamicLibraryImpl.call_run_keywords, hmsg, interpretRun]
  · intro msg hmsg
    simp [DynamicLibraryImpl.call_run_keywords, hmsg, interpretRun]
  · intro e he hfail hskip
    rw [DynamicLibraryImpl.call_run_keywords, he]
    cases e with
    | notImplementedError => rfl
    | failure msg => exact absurd rfl (hfail msg)
    | skip msg => exact absurd rfl (hskip msg)
    | other msg => rfl

/-- Witness for C2: a keyword raising a non-FAIL, non-SKIP error is reported
to the caller as an unexpected failure carrying that very error. -/
theorem run_keywords_outcome_contract_witness :
    interpretRun (erroringDynamicLibrary.call_run_keywords () "keyword" [] []).1
      = Outcome.unexpectedFailure (PyException.other "boom") :=
  (run_keywords_outcome_contract erroringDynamicLibrary () "keyword" [] []).2.2.2.2
    (PyException.other "boom") rfl
    (fun _ h => PyException.noConfusion h)
    (fun _ h => PyException.noConfusion h)

/-- Claim C4: the exact strings returned by `get_keyword_names` are the
canonical names: the engine's introspection pass issues a call `(m, n)` iff
`m` is one of the optional methods and `n` one of the enumerated strings,
used verbatim; and method dispatch hands the `name` argument to the
implementing method unchanged, with no normalization anywhere. -/
theorem keyword_names_used_verbatim {σ : Type} (lib : DynamicLibraryImpl σ)
    (st : σ) (name : Name) (names : List Name) (m : String) (n : Name) :
    ((m, n) ∈ introspectCalls names ↔
      m ∈ DynamicLibrary.optionalMethods ∧ n ∈ names) ∧
    (∀ f, lib.get_keyword_documentation? = some f →
      lib.call_documentation st name = f st name) ∧
    (∀ f, lib.get_keyword_arguments? = some f →
      lib.call_arguments st name = f st name) ∧
    (∀ f, lib.get_keyword_types? = some f → lib.call_types st name = f st name) ∧
    (∀ f, lib.get_keyword_tags? = some f → lib.call_tags st name = f st name) ∧
    (∀ f, lib.get_keyword_source? = some f → lib.call_source st name = f st name) := by
  refine ⟨?_, ?_, ?_, ?_, ?_, ?_⟩
  · constructor
    · intro hmem
      rcases List.mem_flatMap.mp hmem with ⟨a, ha, hpair⟩
      rcases List.mem_map.mp hpair with ⟨m', hm', heq⟩
      rcases Prod.mk.injEq .. ▸ heq with ⟨h1, h2⟩
      exact ⟨h1 ▸ hm', h2 ▸ ha⟩
    · intro ⟨hm, hn⟩
      exact List.mem_flatMap.mpr ⟨n, hn, List.mem_map.mpr ⟨m, hm, rfl⟩⟩
  · intro f hf; simp [DynamicLibraryImpl.call_documentation, hf]
  · intro f hf; simp [DynamicLibraryImpl.call_arguments, hf]
  · intro f hf; simp [DynamicLibraryImpl.call_types, hf]
  · intro f hf; simp [DynamicLibraryImpl.call_tags, hf]
  · intro f hf; simp [DynamicLibraryImpl.call_source, hf]

/-- Witness for C4: on a concrete library the overriding documentation method
receives the enumerated string `"keyword"` itself, and the introspection pass
issues the corresponding calls. -/
theorem keyword_names_used_verbatim_witness :
    documentedDynamicLibrary.call_documentation () "keyword"
      = (Except.ok (some "keyword"), ()) ∧
    ("get_keyword_tags", "keyword") ∈ introspectCalls ["keyword"] := by
  constructor
  · exact (keyword_names_used_verbatim documentedDynamicLibrary () "keyword"
      ["keyword"] "get_keyword_tags" "keyword").2.1
      (fun st name => (Except.ok (some name), st)) rfl
  · exact (keyword_names_used_verbatim documentedDynamicLibrary () "keyword"
      ["keyword"] "get_keyword_tags" "keyword").1.mpr ⟨by decide, by decide⟩

/-- Claim C8: `HybridLibrary` declares exactly one method, the required
`get_keyword_names`; none of the optional introspection methods of the
dynamic contract is part of it; and on a conforming instance every enumerated
name resolves through ordinary attribute lookup to a keyword method. -/
theorem hybrid_contract {σ : Type} (lib : HybridLibraryImpl σ) :
    HybridLibrary.methods = ["get_keyword_names"] ∧
    HybridLibrary.abstractMethods = HybridLibrary.methods ∧
    (∀ m ∈ DynamicLibrary.optionalMethods, m ∉ HybridLibrary.methods) ∧
    (HybridConforming lib →
      ∀ st names st', lib.get_keyword_names st = (Except.ok names, st') →
        ∀ name ∈ names, ∃ f, lib.getattr st' name = some f) := by
  refine ⟨rfl, rfl, by decide, ?_⟩
  intro hconf st names st' hrun name hname
  have hsome := hconf st names st' hrun name hname
  exact Option.isSome_iff_exists.mp hsome

/-- Witness for C8: the concrete hybrid library resolves its enumerated name
`"keyword"` to a method. -/
theorem hybrid_contract_witness :
    ∃ f, sampleHybridLibrary.getattr () "keyword" = some f := by
  have hconf : HybridConforming sampleHybridLibrary := by
    intro st names st' h name hname
    have h1 : names = ["keyword"] := by
      cases h; rfl
    subst h1
    have h2 : name = "keyword" := by simpa using hname
    subst h2
    rfl
  exact (hybrid_contract sampleHybridLibrary).2.2.2 hconf () ["keyword"] () rfl
    "keyword" (by decide)

/-- Counterexample for C9: one concrete plugin satisfies the `DynamicLibrary`
contract and the `HybridLibrary` contract simultaneously, so the two
contracts are not mutually exclusive as stated. -/
theorem both_contracts_satisfiable :
    DynamicPluginConforming bothStylesPlugin ∧
      HybridPluginConforming bothStylesPlugin := by
  constructor
  · exact ⟨rfl, rfl⟩
  · refine ⟨_, rfl, ?_⟩
    intro st names st' h name hname
    have h1 : names = ["keyword"] := by
      cases h; rfl
    subst h1
    have h2 : name = "keyword" := by simpa using hname
    subst h2
    rfl

/-- Claim C9 (amended): the consuming engine treats each plugin under exactly one
style — a plugin conforming to the dynamic contract is always selected as
dynamic (even if it also satisfies the hybrid contract), a plugin
implementing only `get_keyword_names` is selected as hybrid, and no plugin is
ever selected under both styles. -/
theorem styles_mutually_exclusive {σ : Type} (p : Plugin σ) :
    (DynamicPluginConforming p → selectStyle p = some Style.dynamic) ∧
    (p.run_keywords? = none → p.get_keyword_names?.isSome = true →
      selectStyle p = some Style.hybrid) ∧
    ¬(selectStyle p = some Style.dynamic ∧ selectStyle p = some Style.hybrid) := by
  refine ⟨?_, ?_, ?_⟩
  · intro ⟨_, hrun⟩
    simp [selectStyle, hrun]
  · intro hrun hnames
    simp [selectStyle, hrun, hnames]
  · intro ⟨h1, h2⟩
    have := h1.symm.trans h2
    simp at this

/-- Witness for C9 (amended): `bothStylesPlugin` conforms to the dynamic
contract and is selected under the dynamic style alone. -/
theorem styles_mutually_exclusive_witness :
    selectStyle bothStylesPlugin = some Style.dynamic :=
  (styles_mutually_exclusive bothStylesPlugin).1 ⟨rfl, rfl⟩

/-- Claim C6: a type specification resolves against the keyword's argument
specification in both shapes — a name-keyed mapping is read by parameter
name and a positional list by index — and both tolerate partial coverage: an
omitted mapping key, a `None` list entry, or a position beyond the end of the
list give "no type information" rather than an error. -/
theorem type_spec_resolution (m : List (String × TypeRef))
    (l : List (Option TypeRef)) (spec : ArgumentSpec) (i : Nat) (e : ArgEntry) :
    (spec[i]? = some e →
      resolveTypeFor (TypeSpec.byName m) spec i = lookupType m e.paramName) ∧
    (spec[i]? = some e → lookupType m e.paramName = none →
      resolveTypeFor (TypeSpec.byName m) spec i = none) ∧
    (spec[i]? = some e →
      resolveTypeFor (TypeSpec.byPosition l) spec i = l[i]?.join) ∧
    (spec[i]? = some e → l[i]? = some none →
      resolveTypeFor (TypeSpec.byPosition l) spec i = none) ∧
    (spec[i]? = some e → l.length ≤ i →
      resolveTypeFor (TypeSpec.byPosition l) spec i = none) ∧
    (spec[i]? = none → ∀ ts, resolveTypeFor ts spec i = none) := by
  refine ⟨?_, ?_, ?_, ?_, ?_, ?_⟩
  · intro he; simp [resolveTypeFor, he]
  · intro he hmiss; simp [resolveTypeFor, he, hmiss]
  · intro he; simp [resolveTypeFor, he]
  · intro he hnone; simp [resolveTypeFor, he, hnone]
  · intro he hlen
    have hnone : l[i]? = none := by
      exact getElem?_neg l i (by omega)
    simp [resolveTypeFor, he, hnone]
  · intro he ts
    cases ts <;> simp [resolveTypeFor, he]

/-- Witness for C6: the docstring's example — argument specification
`['arg', 'second']` with types given as `{'arg': str, 'second': int}` or as
`[str, int]` — resolves by name and by position, and omissions give no type
information. -/
theorem type_spec_resolution_witness :
    resolveTypeFor (TypeSpec.byName [("arg", TypeRef.cls "str"),
        ("second", TypeRef.cls "int")])
      [ArgEntry.str "arg", ArgEntry.str "second"] 1 = some (TypeRef.cls "int") ∧
    resolveTypeFor (TypeSpec.byPosition [some (TypeRef.cls "str"),
        some (TypeRef.cls "int")])
      [ArgEntry.str "arg", ArgEntry.str "second"] 0 = some (TypeRef.cls "str") ∧
    resolveTypeFor (TypeSpec.byName [("arg", TypeRef.cls "str")])
      [ArgEntry.str "arg", ArgEntry.str "second"] 1 = none ∧
    resolveTypeFor (TypeSpec.byPosition [some (TypeRef.cls "str")])
      [ArgEntry.str "arg", ArgEntry.str "second"] 1 = none := by
  refine ⟨?_, ?_, ?_, ?_⟩
  · have h := (type_spec_resolution [("arg", TypeRef.cls "str"),
      ("second", TypeRef.cls "int")] [] [ArgEntry.str "arg", ArgEntry.str "second"]
      1 (ArgEntry.str "second")).1 rfl
    rw [h]; decide
  · have h := (type_spec_resolution [] [some (TypeRef.cls "str"),
      some (TypeRef.cls "int")] [ArgEntry.str "arg", ArgEntry.str "second"]
      0 (ArgEntry.str "arg")).2.2.1 rfl
    rw [h]; decide
  · have h := (type_spec_resolution [("arg", TypeRef.cls "str")] []
      [ArgEntry.str "arg", ArgEntry.str "second"] 1 (ArgEntry.str "second")).2.1
      rfl (by decide)
    exact h
  · have h := (type_spec_resolution [] [some (TypeRef.cls "str")]
      [ArgEntry.str "arg", ArgEntry.str "second"] 1 (ArgEntry.str "second")).2.2.2.2.1
      rfl (by decide)
    exact h

/-- A scan over characters none of which is a colon finds nothing. -/
theorem splitRevAux_no_colon {l : List Char} (h : ∀ c ∈ l, c ≠ ':')
    (acc : List Char) : splitRevAux l acc = none := by
  induction l generalizing acc with
  | nil => rfl
  | cons c t ih =>
    have hc : c ≠ ':' := h c (List.mem_cons_self ..)
    simp only [splitRevAux]
    rw [if_neg hc]
    exact ih (fun x hx => h x (List.mem_cons_of_mem _ hx)) _

/-- The scan stops at the first colon, returning the remaining characters and
the accumulated ones. -/
theorem splitRevAux_finds_colon {es : List Char} (pr : List Char)
    (h : ∀ c ∈ es, c ≠ ':') (acc : List Char) :
    splitRevAux (es ++ ':' :: pr) acc = some (pr.reverse, es.reverse ++ acc) := by
  induction es generalizing acc with
  | nil => simp [splitRevAux]
  | cons c t ih =>
    have hc : c ≠ ':' := h c (List.mem_cons_self ..)
    simp only [List.cons_append, splitRevAux]
    rw [if_neg hc]
    show splitRevAux (t ++ ':' :: pr) (c :: acc)
      = some (pr.reverse, (c :: t).reverse ++ acc)
    rw [ih (fun x hx => h x (List.mem_cons_of_mem _ hx)) (c :: acc)]
    simp

/-- A decimal digit is never the colon. -/
theorem digit_ne_colon {c : Char} (h : c.isDigit = true) : c ≠ ':' := by
  intro heq
  subst heq
  exact absurd h (by decide)

/-- Rebuilding a string from its characters is the identity. -/
theorem string_mk_data (s : String) : String.mk s.data = s := rfl

/-- Claim C7: a locator `path:lineno` splits into the path and the integer
line number; a locator carrying only a line number, such as `:42`, yields the
line number with the path supplied from the library's own source file; and a
locator without a line-number suffix is a valid bare path with no line
number. -/
theorem source_locator_parsing (path : Source) (ds : List Char)
    (libPath : Option Source) :
    (isDigits ds = true → path.data ≠ [] →
      parseSourceLocator (String.mk (path.data ++ ':' :: ds)) libPath
        = (some path, some (digitsToNat ds))) ∧
    (isDigits ds = true →
      parseSourceLocator (String.mk (':' :: ds)) libPath
        = (libPath, some (digitsToNat ds))) ∧
    ((∀ c ∈ path.data, c ≠ ':') →
      parseSourceLocator path libPath = (some path, none)) := by
  refine ⟨?_, ?_, ?_⟩
  · intro hds hpath
    have hall : ∀ c ∈ ds.reverse, c ≠ ':' := by
      intro c hc
      have hd : c.isDigit = true := by
        have := ((Bool.and_eq_true ..).mp hds).2
        exact List.all_eq_true.mp this c (List.mem_reverse.mp hc)
      exact digit_ne_colon hd
    have hsplit : splitAtLastColon (String.mk (path.data ++ ':' :: ds))
        = some (String.mk path.data, String.mk ds) := by
      simp only [splitAtLastColon]
      have hrev : (String.mk (path.data ++ ':' :: ds)).data.reverse
          = ds.reverse ++ ':' :: path.data.reverse := by
        simp [List.reverse_append]
      rw [hrev, splitRevAux_finds_colon path.data.reverse hall []]
      simp
    have hempty : path.data.isEmpty = false := by
      cases hp : path.data with
      | nil => exact absurd hp hpath
      | cons a t => rfl
    have hd1 : (String.mk ds).data = ds := rfl
    have hd2 : (String.mk path.data).data = path.data := rfl
    simp [parseSourceLocator, hsplit, hd1, hd2, hds, hempty, string_mk_data]
  · intro hds
    have hall : ∀ c ∈ ds.reverse, c ≠ ':' := by
      intro c hc
      have hd : c.isDigit = true := by
        have := ((Bool.and_eq_true ..).mp hds).2
        exact List.all_eq_true.mp this c (List.mem_reverse.mp hc)
      exact digit_ne_colon hd
    have hsplit : splitAtLastColon (String.mk (':' :: ds))
        = some (String.mk [], String.mk ds) := by
      simp only [splitAtLastColon]
      have hrev : (String.mk (':' :: ds)).data.reverse
          = ds.reverse ++ ':' :: ([] : List Char) := by
        simp
      rw [hrev, splitRevAux_finds_colon [] hall []]
      simp
    have hd1 : (String.mk ds).data = ds := rfl
    simp [parseSourceLocator, hsplit, hd1, hds]
  · intro hcolon
    have hsplit : splitAtLastColon path = none := by
      simp only [splitAtLastColon]
      rw [splitRevAux_no_colon (fun c hc => hcolon c (List.mem_reverse.mp hc)) []]
    simp [parseSourceLocator, hsplit]

/-- Witness for C7: the docstring's examples `/example/Lib.py:42` and `:42`,
and a bare path. -/
theorem source_locator_parsing_witness :
    parseSourceLocator "/example/Lib.py:42" (some "/main/Lib.py")
      = (some "/example/Lib.py", some 42) ∧
    parseSourceLocator ":42" (some "/main/Lib.py")
      = (some "/main/Lib.py", some 42) ∧
    parseSourceLocator "/example/Lib.py" none
      = (some "/example/Lib.py", none) := by
  refine ⟨?_, ?_, ?_⟩
  · have h := (source_locator_parsing "/example/Lib.py" ['4', '2']
      (some "/main/Lib.py")).1 (by decide) (by decide)
    have heq : String.mk ("/example/Lib.py".data ++ ':' :: ['4', '2'])
        = "/example/Lib.py:42" := by decide
    rw [heq] at h
    rw [h]
    decide
  · have h := (source_locator_parsing "/example/Lib.py" ['4', '2']
      (some "/main/Lib.py")).2.1 (by decide)
    have heq : String.mk (':' :: ['4', '2']) = ":42" := by decide
    rw [heq] at h
    rw [h]
    decide
  · exact (source_locator_parsing "/example/Lib.py" [] none).2.2 (by decide)

/-- In the named-only phase the automaton accepts no further varargs and no
further separator. -/
theorem wfAux_named_no_varargs {ks : List EntryKind}
    (h : wfAux WfPhase.named ks = true) :
    EntryKind.varargs ∉ ks ∧ EntryKind.sep ∉ ks := by
  induction ks with
  | nil => simp
  | cons k r ih =>
    cases k with
    | required =>
      have h' : wfAux WfPhase.named r = true := h
      rcases ih h' with ⟨h1, h2⟩
      simp [h1, h2]
    | withDefault =>
      have h' : wfAux WfPhase.named r = true := h
      rcases ih h' with ⟨h1, h2⟩
      simp [h1, h2]
    | varargs => simp [wfAux] at h
    | sep => simp [wfAux] at h
    | kwargs =>
      have hr : r = [] := by simpa [wfAux] using h
      subst hr
      simp

/-- Stepping the automaton over the head entry: a kwargs head ends the
specification, any other head leaves a well-formed tail in some phase. -/
theorem wfAux_step {ph : WfPhase} {k : EntryKind} {r : List EntryKind}
    (h : wfAux ph (k :: r) = true) :
    (k = EntryKind.kwargs ∧ r = []) ∨
      (k ≠ EntryKind.kwargs ∧ ∃ ph', wfAux ph' r = true) := by
  cases ph <;> cases k <;> simp [wfAux] at h <;>
    first
      | exact Or.inl ⟨rfl, h⟩
      | exact Or.inr ⟨by simp, ⟨_, h⟩⟩

/-- After a varargs entry the automaton is in the named-only phase. -/
theorem wfAux_varargs_tail {ph : WfPhase} {r : List EntryKind}
    (h : wfAux ph (EntryKind.varargs :: r) = true) :
    wfAux WfPhase.named r = true := by
  cases ph <;> simp [wfAux] at h <;> exact h

/-- After the lone `*` separator the automaton is in the named-only phase. -/
theorem wfAux_sep_tail {ph : WfPhase} {r : List EntryKind}
    (h : wfAux ph (EntryKind.sep :: r) = true) :
    wfAux WfPhase.named r = true := by
  cases ph <;> simp [wfAux] at h <;> exact h

/-- A well-formed kind list contains at most one kwargs entry, and if one is
present it is the final entry. -/
theorem wfAux_kwargs_last {ks : List EntryKind} {ph : WfPhase}
    (h : wfAux ph ks = true) :
    ks.count EntryKind.kwargs ≤ 1 ∧
      (EntryKind.kwargs ∈ ks → ks.getLast? = some EntryKind.kwargs) := by
  induction ks generalizing ph with
  | nil => simp
  | cons k r ih =>
    rcases wfAux_step h with ⟨hk, hr⟩ | ⟨hk, ph', h'⟩
    · subst hk
      subst hr
      decide
    · rcases ih h' with ⟨h1, h2⟩
      constructor
      · simpa [List.count_cons, hk] using h1
      · intro hm
        have hr : EntryKind.kwargs ∈ r := by
          rcases List.mem_cons.mp hm with h3 | h3
          · exact absurd h3.symm hk
          · exact h3
        have hlast := h2 hr
        cases r with
        | nil => cases hr
        | cons b t => simpa [List.getLast?_cons_cons] using hlast

/-- A well-formed kind list contains at most one varargs entry. -/
theorem wfAux_varargs_count {ks : List EntryKind} {ph : WfPhase}
    (h : wfAux ph ks = true) : ks.count EntryKind.varargs ≤ 1 := by
  induction ks generalizing ph with
  | nil => simp
  | cons k r ih =>
    by_cases hv : k = EntryKind.varargs
    · subst hv
      have hr : wfAux WfPhase.named r = true := wfAux_varargs_tail h
      have hnot : EntryKind.varargs ∉ r := (wfAux_named_no_varargs hr).1
      have hzero : r.count EntryKind.varargs = 0 := List.count_eq_zero.mpr hnot
      simp [List.count_cons, hzero]
    · rcases wfAux_step h with ⟨hk, hr⟩ | ⟨hk, ph', h'⟩
      · subst hk
        subst hr
        decide
      · have h1 := ih h'
        simpa [List.count_cons, hv] using h1

/-- In a well-formed kind list that contains a varargs entry, every entry
before the varargs is a normal positional entry. -/
theorem wfAux_before_varargs {ks : List EntryKind} {ph : WfPhase}
    (hph : ph = WfPhase.pos ∨ ph = WfPhase.posDef)
    (h : wfAux ph ks = true) (hv : EntryKind.varargs ∈ ks) :
    ∀ k ∈ ks.takeWhile (fun k => k != EntryKind.varargs),
      isPositionalKind k = true := by
  induction ks generalizing ph with
  | nil => cases hv
  | cons k r ih =>
    cases k with
    | varargs =>
      intro x hx
      simp [List.takeWhile_cons] at hx
    | required =>
      have hph' : ph = WfPhase.pos := by
        rcases hph with h1 | h1
        · exact h1
        · subst h1; simp [wfAux] at h
      subst hph'
      have h' : wfAux WfPhase.pos r = true := h
      have hv' : EntryKind.varargs ∈ r := by simpa using hv
      intro x hx
      rw [List.takeWhile_cons] at hx
      simp only [show (EntryKind.required != EntryKind.varargs) = true from rfl,
        if_true, List.mem_cons] at hx
      rcases hx with h3 | h3
      · subst h3; rfl
      · exact ih (Or.inl rfl) h' hv' x h3
    | withDefault =>
      have h' : wfAux WfPhase.posDef r = true := by
        rcases hph with h1 | h1 <;> subst h1 <;> exact h
      have hv' : EntryKind.varargs ∈ r := by simpa using hv
      intro x hx
      rw [List.takeWhile_cons] at hx
      simp only [show (EntryKind.withDefault != EntryKind.varargs) = true from rfl,
        if_true, List.mem_cons] at hx
      rcases hx with h3 | h3
      · subst h3; rfl
      · exact ih (Or.inr rfl) h' hv' x h3
    | sep =>
      have h' : wfAux WfPhase.named r = true := wfAux_sep_tail h
      have hv' : EntryKind.varargs ∈ r := by simpa using hv
      exact absurd hv' (wfAux_named_no_varargs h').1
    | kwargs =>
      have hr : r = [] := by
        rcases wfAux_step h with ⟨_, h1⟩ | ⟨h1, _⟩
        · exact h1
        · exact absurd rfl h1
      subst hr
      simp at hv

/-- From the positional-with-defaults phase, the remaining run of normal
entries consists of defaulted entries only. -/
theorem wfAux_posDef_defaults {ks : List EntryKind}
    (h : wfAux WfPhase.posDef ks = true) :
    allWithDefault (ks.takeWhile isPositionalKind) = true := by
  induction ks with
  | nil => rfl
  | cons k r ih =>
    cases k with
    | required => simp [wfAux] at h
    | withDefault => exact ih h
    | varargs => rfl
    | sep => rfl
    | kwargs => rfl

/-- In a well-formed kind list, within the leading run of normal positional
entries, every entry after the first defaulted one is also defaulted. -/
theorem wfAux_pos_defaults {ks : List EntryKind}
    (h : wfAux WfPhase.pos ks = true) :
    defaultsFollowRequired (ks.takeWhile isPositionalKind) = true := by
  induction ks with
  | nil => rfl
  | cons k r ih =>
    cases k with
    | required => exact ih h
    | withDefault => exact wfAux_posDef_defaults h
    | varargs => rfl
    | sep => rfl
    | kwargs => rfl

/-- The named-only phase accepts entries with and without defaults in any
order. -/
theorem wfAux_named_positional (ns : List EntryKind)
    (h : ∀ k ∈ ns, isPositionalKind k = true) :
    wfAux WfPhase.named ns = true := by
  induction ns with
  | nil => rfl
  | cons k r ih =>
    have hk := h k (List.mem_cons_self ..)
    have h' := fun x hx => h x (List.mem_cons_of_mem _ hx)
    cases k with
    | required => exact ih h'
    | withDefault => exact ih h'
    | varargs => simp [isPositionalKind] at hk
    | sep => simp [isPositionalKind] at hk
    | kwargs => simp [isPositionalKind] at hk

/-- Claim C5: a well-formed argument specification satisfies the invariant —
in the positional part, defaulted entries follow undefaulted ones (while
named-only entries, accepted by the named-only phase, carry no such ordering
restriction); there is at most one varargs entry and every entry before it is
a normal positional entry; and there is at most one kwargs entry, which, if
present, is the final entry. -/
theorem argument_spec_invariant (spec : ArgumentSpec)
    (h : wellFormed spec = true) :
    defaultsFollowRequired
        ((spec.map ArgEntry.kind).takeWhile isPositionalKind) = true ∧
    (spec.map ArgEntry.kind).count EntryKind.varargs ≤ 1 ∧
    (EntryKind.varargs ∈ spec.map ArgEntry.kind →
      ∀ k ∈ (spec.map ArgEntry.kind).takeWhile
          (fun k => k != EntryKind.varargs), isPositionalKind k = true) ∧
    (spec.map ArgEntry.kind).count EntryKind.kwargs ≤ 1 ∧
    (EntryKind.kwargs ∈ spec.map ArgEntry.kind →
      (spec.map ArgEntry.kind).getLast? = some EntryKind.kwargs) ∧
    (∀ ns : List EntryKind, (∀ k ∈ ns, isPositionalKind k = true) →
      wfAux WfPhase.named ns = true) := by
  have h0 : wfAux WfPhase.pos (spec.map ArgEntry.kind) = true := h
  exact ⟨wfAux_pos_defaults h0, wfAux_varargs_count h0,
    fun hv => wfAux_before_varargs (Or.inl rfl) h0 hv,
    (wfAux_kwargs_last h0).1, (wfAux_kwargs_last h0).2,
    wfAux_named_positional⟩

/-- A specification exercising every entry form of the docstring. -/
def sampleArgSpec : ArgumentSpec :=
  [ArgEntry.str "first", ArgEntry.tuple1 "second",
   ArgEntry.tuple2 "third" (Value.int 3), ArgEntry.str "fourth=4",
   ArgEntry.str "*rest", ArgEntry.str "named=x", ArgEntry.tuple1 "other",
   ArgEntry.str "**config"]

/-- Witness for C5: the sample specification is well-formed and its kwargs
entry is unique and final. -/
theorem argument_spec_invariant_witness :
    wellFormed sampleArgSpec = true ∧
    (sampleArgSpec.map ArgEntry.kind).count EntryKind.kwargs ≤ 1 ∧
    (sampleArgSpec.map ArgEntry.kind).getLast? = some EntryKind.kwargs ∧
    defaultsFollowRequired
        ((sampleArgSpec.map ArgEntry.kind).takeWhile isPositionalKind) = true := by
  have h : wellFormed sampleArgSpec = true := by decide
  exact ⟨h, (argument_spec_invariant sampleArgSpec h).2.2.2.1,
    (argument_spec_invariant sampleArgSpec h).2.2.2.2.1 (by decide),
    (argument_spec_invariant sampleArgSpec h).1⟩

end RobotInterfaces
